import Mathlib

/-!
# A verification model of FitLib (Parameter / Function / Fitter)

This file gives a shallow embedding, in Lean 4, of the core of the FitLib
curve-fitting package (`FitLib/Function.py` and `FitLib/Fitter.py`) and proves
properties of that embedding.

Modelling conventions:

* Finite `float64` values are modelled as exact rationals (`ℚ`).  The
  floating-point rounding of individual arithmetic operations is out of scope;
  the properties verified here are structural (list filtering, deduplication,
  aggregation, error propagation) and hold for exact arithmetic.
* For the `Parameter`-level claims (where the distinction between finite and
  non-finite `float64` values matters, since Python's `float()` accepts
  `nan`/`inf`), a dedicated value type `PFloat` with `nan`, `inf`, `neginf`
  elements and IEEE-754 comparison semantics is used.
* Python object identity is modelled by a heap: `Parameter` objects live in a
  `Heap : Ref → ParamData` indexed by references `Ref := Nat`; two references
  are "the same object" exactly when they are the same `Ref`.  This matches
  the source, where `Parameter` does not override `__eq__`, so `param not in
  params_list` compares by identity.
* Python `assert` failures (and other hard failures) are modelled by `Option`:
  a function returns `none` where the Python code raises.
* `numpy` arrays are modelled as `List ℚ`; `np.mean` is sum divided by length;
  `np.logical_and(x >= x_min, x <= x_max)` is a Boolean mask over the list.
-/

set_option autoImplicit false

namespace FitLib

/-! ## Float model for the Parameter-level claims

`PFloat` models a `float64` value: either a finite value (an exact rational)
or one of the non-finite values `nan`, `inf` (`+∞`), `neginf` (`-∞`), all of
which Python's `float()` accepts and stores without complaint. -/

inductive PFloat : Type where
  | fin : ℚ → PFloat
  | nan : PFloat
  | inf : PFloat
  | neginf : PFloat
deriving DecidableEq

/-- IEEE-754 `<` on `PFloat`: any comparison with `nan` is `false`. -/
def PFloat.ltb : PFloat → PFloat → Bool
  | .fin a, .fin b => decide (a < b)
  | .nan, _ => false
  | _, .nan => false
  | .neginf, .neginf => false
  | .neginf, _ => true
  | _, .neginf => false
  | .inf, _ => false
  | _, .inf => true

/-- `PFloat` is finite exactly when it carries a rational value. -/
def PFloat.isFinite : PFloat → Bool
  | .fin _ => true
  | _ => false

/-- Model of the `Parameter` class of `FitLib/Function.py`.

`_val` holds the current value; `_bounds` holds the `(p_min, p_max)` pair
(after the `Bounds` setter has run it is always a pair, with `none` standing
for Python `None` on either side); `_fit_flag` is the optimise/fix flag. -/
structure Parameter where
  val : PFloat
  bounds : Option PFloat × Option PFloat
  fit_flag : Bool
deriving DecidableEq

/-- Model of the `Parameter.Bounds` setter: `None` becomes `(None, None)`;
otherwise each side is passed through `float()` (the identity here) when
present. -/
def Parameter.setBounds (bounds : Option (Option PFloat × Option PFloat)) :
    Option PFloat × Option PFloat :=
  match bounds with
  | none => (none, none)
  | some (pmin, pmax) => (pmin, pmax)

/-- Model of `Parameter.__init__(val, bounds, fit_flag)`: stores `float(val)`
(the identity on `PFloat`), the normalised bounds and the fit flag.  Note that
`float()` accepts and stores non-finite values. -/
def Parameter.mk0 (val : PFloat) (bounds : Option (Option PFloat × Option PFloat))
    (fit_flag : Bool) : Parameter :=
  { val := val, bounds := Parameter.setBounds bounds, fit_flag := fit_flag }

/-- Model of the `Parameter.Value` setter.  The stored bounds pair is never
Python `None` after construction, so the `if self._bounds is not None` guard
in the source is always taken.  Returns the updated parameter together with a
Boolean that is `true` exactly when the out-of-bounds `RuntimeWarning` is
emitted; the value is stored in either case. -/
def Parameter.setValue (p : Parameter) (v : PFloat) : Parameter × Bool :=
  let warn :=
    (match p.bounds.1 with
     | some pmin => PFloat.ltb v pmin
     | none => false) ||
    (match p.bounds.2 with
     | some pmax => PFloat.ltb pmax v
     | none => false)
  ({ p with val := v }, warn)

/-- Apply a sequence of `Value` assignments to a parameter, discarding the
warning flags (warnings are non-fatal and carry no state). -/
def Parameter.applyValues (p : Parameter) (vs : List PFloat) : Parameter :=
  vs.foldl (fun q v => (q.setValue v).1) p

/-! ## The heap model used by the Function / Fitter development

The Function- and Fitter-level claims are structural; all numeric values there
are modelled as finite floats, i.e. as `ℚ`.  A `Parameter` object is a cell in
a heap, addressed by a `Ref`; object identity is `Ref` equality. -/

/-- A reference to a `Parameter` object (Python object identity). -/
abbrev Ref : Type := Nat

/-- The data held by one `Parameter` object, with values restricted to finite
floats: current value, `(p_min, p_max)` bounds and fit flag. -/
structure ParamData where
  val : ℚ
  lb : Option ℚ
  ub : Option ℚ
  fit_flag : Bool
deriving DecidableEq

instance : Inhabited ParamData := ⟨⟨0, none, none, true⟩⟩

/-- The heap of `Parameter` objects.  Total as a function; only references
reachable from the structures below are meaningful. -/
abbrev Heap : Type := Ref → ParamData

/-- Point update of the heap. -/
def hUpdate (h : Heap) (r : Ref) (d : ParamData) : Heap :=
  fun r' => if r' = r then d else h r'

/-- Model of `param.Value = val` at heap level: stores the value
unconditionally (the possible out-of-bounds warning is non-fatal and leaves no
state; see `Parameter.setValue` for the warning logic). -/
def hSetValue (h : Heap) (r : Ref) (v : ℚ) : Heap :=
  hUpdate h r { h r with val := v }

/-- An evaluator callable `func(x, *params)` as stored in a `Function`:
it receives the x values and the current parameter values and produces the
y values. -/
abbrev Evaluator : Type := List ℚ → List ℚ → List ℚ

/-- The `Function` class hierarchy of `FitLib/Function.py` as a tagged
variant: `leaf` is a plain `Function` (an evaluator plus an ordered list of
`Parameter` references); `comp` is a `CompositeFunction` (an ordered list of
child functions, each possibly composite). -/
inductive FitFunc : Type where
  | leaf : Evaluator → List Ref → FitFunc
  | comp : List FitFunc → FitFunc

/-- Elementwise sum of a list of equal-length rows: `np.sum(rows, axis = 0)`.
(The empty case does not arise in the claims: a `CompositeFunction` is built
from at least one child in every scenario considered.) -/
def sumLists : List (List ℚ) → List ℚ
  | [] => []
  | [l] => l
  | l :: ls => List.zipWith (· + ·) l (sumLists ls)

mutual

/-- Model of `Function.Evaluate` / `CompositeFunction.Evaluate`.

* A plain `Function` calls the evaluator with `x` and the parameters' current
  values in declaration order — there is no check on `x` (in particular no
  emptiness check).
* A `CompositeFunction` (via `EvaluateIndividual`) asserts `len(x) > 0`, then
  evaluates each child on `x` and sums the results elementwise
  (`np.sum(..., axis = 0)`). -/
def Evaluate (h : Heap) : FitFunc → List ℚ → Option (List ℚ)
  | .leaf f ps, x => some (f x (ps.map (fun r => (h r).val)))
  | .comp cs, x =>
    if 0 < x.length then
      (EvaluateChildren h cs x).map sumLists
    else
      none

/-- The list comprehension `[func.Evaluate(x) for func in self._funcs]` in
`CompositeFunction.EvaluateIndividual`: evaluates the children in order,
propagating any failure. -/
def EvaluateChildren (h : Heap) : List FitFunc → List ℚ → Option (List (List ℚ))
  | [], _ => some []
  | c :: cs, x =>
    match Evaluate h c x, EvaluateChildren h cs x with
    | some l, some ls => some (l :: ls)
    | _, _ => none

end

mutual

/-- Model of `Function.GetParamsList` / `CompositeFunction.GetParamsList`:
a plain `Function` returns `[param for param in self._params if
param.FitFlag or not fit_only]`; a `CompositeFunction` concatenates its
children's lists in child order. -/
def GetParamsList (h : Heap) (fit_only : Bool) : FitFunc → List Ref
  | .leaf _ ps => ps.filter (fun r => (h r).fit_flag || !fit_only)
  | .comp cs => GetParamsListChildren h fit_only cs

/-- The accumulation loop in `CompositeFunction.GetParamsList`. -/
def GetParamsListChildren (h : Heap) (fit_only : Bool) : List FitFunc → List Ref
  | [] => []
  | c :: cs => GetParamsList h fit_only c ++ GetParamsListChildren h fit_only cs

end

/-! ## The factory function `CreateFunction`

An element of `p_init` is either an existing `Parameter` object (a reference)
or a bare scalar to be wrapped.  New `Parameter` objects are allocated at
fresh references `next, next + 1, ...` in order of position. -/

/-- One entry of the `p_init` argument of `CreateFunction`: an existing
`Parameter` object, or a bare scalar value. -/
abbrev PInit : Type := Ref ⊕ ℚ

/-- The wrapping loop of `CreateFunction`: walks `params` left to right and
replaces each non-`Parameter` entry by a freshly allocated `Parameter` built
from the scalar, the matching `p_fit` entry (default `true`) and the matching
`p_bounds` entry (default unbounded), threading the heap and the fresh-
reference counter.  `i` is the current position, used to index `p_fit` and
`p_bounds`. -/
def wrapParams (h : Heap) (next : Ref) (i : Nat) (p_fit : Option (List Bool))
    (p_bounds : Option (List (Option ℚ × Option ℚ))) :
    List PInit → List Ref × Heap × Ref
  | [] => ([], h, next)
  | Sum.inl r :: rest =>
    let res := wrapParams h next (i + 1) p_fit p_bounds rest
    (r :: res.1, res.2)
  | Sum.inr q :: rest =>
    let ff := match p_fit with
      | some fs => fs.getD i true
      | none => true
    let bd := match p_bounds with
      | some bs => bs.getD i (none, none)
      | none => (none, none)
    let h1 := hUpdate h next { val := q, lb := bd.1, ub := bd.2, fit_flag := ff }
    let res := wrapParams h1 (next + 1) (i + 1) p_fit p_bounds rest
    (next :: res.1, res.2)

/-- The per-element `isinstance(param, Parameter)` asserts of
`Function.__init__`: succeeds with the list of references exactly when every
entry is a `Parameter` object. -/
def toRefs : List PInit → Option (List Ref)
  | [] => some []
  | Sum.inl r :: rest => (toRefs rest).map (fun rs => r :: rs)
  | Sum.inr _ :: _ => none

/-- Model of `CreateFunction(func, p_init, p_fit, p_bounds)` of
`FitLib/Function.py` (the list-input path; a single bare `Parameter` or
scalar is first wrapped into a one-element list by the `try/except` and
reduces to this).  `wrap` is set when any entry of `p_init` is not a
`Parameter`; only then are `p_fit`/`p_bounds` consulted, and only then are
their lengths asserted to match.  Returns the new `Function` object together
with the updated heap and fresh-reference counter, or `none` when an assert
fails. -/
def CreateFunction (h : Heap) (next : Ref) (func : Evaluator) (p_init : List PInit)
    (p_fit : Option (List Bool)) (p_bounds : Option (List (Option ℚ × Option ℚ))) :
    Option (FitFunc × Heap × Ref) :=
  let wrap := p_init.any (fun e => e.isRight)
  if wrap then
    let fitOk : Bool := match p_fit with
      | some fs => fs.length == p_init.length
      | none => true
    let boundsOk : Bool := match p_bounds with
      | some bs => bs.length == p_init.length
      | none => true
    if fitOk && boundsOk then
      let res := wrapParams h next 0 p_fit p_bounds p_init
      some (FitFunc.leaf func res.1, res.2)
    else
      none
  else
    -- All entries are `Parameter` objects already: they are used as-is, in
    -- order and by identity; `p_fit` and `p_bounds` are never consulted.
    (toRefs p_init).map (fun rs => (FitFunc.leaf func rs, h, next))

/-! ## The Fitter class (`FitLib/Fitter.py`) -/

/-- One entry of the `func_or_func_set` constructor argument: either a
genuine `Function` object or some other object, which fails the
`isinstance(func, Function)` assert. -/
abbrev FObj : Type := FitFunc ⊕ Unit

/-- Model of the `Fitter` object state after construction: the converted
data sets, the function set, and the optional fit range.  (The
`_fit_res` field holds the external minimizer's result and plays no part in
the claims.) -/
structure Fitter where
  data_sets : List (List ℚ × List ℚ)
  func_set : List FitFunc
  fit_range : Option (ℚ × ℚ)

/-- The per-data-set checks of `Fitter.__init__`: each `(x, y)` pair must
satisfy `n_x > 0 and n_x == n_y`. -/
def checkDataSets : List (List ℚ × List ℚ) → Bool
  | [] => true
  | (x, y) :: rest => (0 < x.length && x.length == y.length) && checkDataSets rest

/-- The per-function `isinstance(func, Function)` asserts of
`Fitter.__init__`. -/
def checkFuncs : List FObj → Option (List FitFunc)
  | [] => some []
  | Sum.inl f :: rest => (checkFuncs rest).map (fun fs => f :: fs)
  | Sum.inr _ :: _ => none

/-- Model of `Fitter.__init__(data_set_or_data_sets, func_or_func_set,
fit_range)`, on the normalised list-of-data-sets / list-of-functions inputs
(a single `(x, y)` pair, detected by its shape, and a single `Function`
object are each first wrapped into one-element lists and reduce to this).
Checks every data set and every function entry; stores the fit range
unchanged (the `FitRange` setter's `float()` conversions are the identity
here).  Note: the constructor never compares the number of functions with
the number of data sets. -/
def mkFitter (dss : List (List ℚ × List ℚ)) (fs : List FObj)
    (fit_range : Option (ℚ × ℚ)) : Option Fitter :=
  if checkDataSets dss then
    (checkFuncs fs).map (fun fset =>
      { data_sets := dss, func_set := fset, fit_range := fit_range })
  else
    none

/-- The Boolean mask `np.logical_and(x >= x_min, x <= x_max)`. -/
def rangeMask (lo hi : ℚ) (x : List ℚ) : List Bool :=
  x.map (fun xi => decide (lo ≤ xi) && decide (xi ≤ hi))

/-- NumPy Boolean-mask indexing `v[mask]` (mask and array have equal
length in every use: the mask is built from `x` and applied to `x` and to
the equal-length `y`). -/
def applyMask : List Bool → List ℚ → List ℚ
  | true :: ms, v :: vs => v :: applyMask ms vs
  | false :: ms, _ :: vs => applyMask ms vs
  | _, _ => []

/-- The body of the per-data-set loop of `Fitter.EvaluateFit`: if a fit
range is set, mask `x` and `y` to the points with `x_min <= x <= x_max`,
asserting `mask.sum() > 0`; then evaluate the data set's function on the
(possibly filtered) `x` and return the `(x, y, y_fit)` triple. -/
def evalDataSet (h : Heap) (fit_range : Option (ℚ × ℚ))
    (ds : List ℚ × List ℚ) (f : FitFunc) : Option (List ℚ × List ℚ × List ℚ) :=
  match fit_range with
  | none => (Evaluate h f ds.1).map (fun y_fit => (ds.1, ds.2, y_fit))
  | some (lo, hi) =>
    let mask := rangeMask lo hi ds.1
    if 0 < mask.count true then
      let x := applyMask mask ds.1
      let y := applyMask mask ds.2
      (Evaluate h f x).map (fun y_fit => (x, y, y_fit))
    else
      none

/-- The loop of `Fitter.EvaluateFit` over `zip(self._data_sets,
self._func_set)`, propagating any assert failure. -/
def evalPairs (h : Heap) (fit_range : Option (ℚ × ℚ)) :
    List ((List ℚ × List ℚ) × FitFunc) → Option (List (List ℚ × List ℚ × List ℚ))
  | [] => some []
  | pf :: rest =>
    match evalDataSet h fit_range pf.1 pf.2, evalPairs h fit_range rest with
    | some t, some ts => some (t :: ts)
    | _, _ => none

/-- Model of `Fitter.EvaluateFit(strip_dims = False)`: the list of
`(x, y, y_fit)` triples, one per `zip(data_sets, func_set)` entry.  The
`strip_dims` presentation step is modelled separately by
`EvaluateFitStripped`. -/
def EvaluateFit (F : Fitter) (h : Heap) : Option (List (List ℚ × List ℚ × List ℚ)) :=
  evalPairs h F.fit_range (F.data_sets.zip F.func_set)

/-- `np.mean((y - y_fit) ** 2)`: the mean squared residual.  `y` and
`y_fit` have equal length in every use (the evaluators considered are
length-preserving, as the `Function` contract requires). -/
def meanSq (y y_fit : List ℚ) : ℚ :=
  (((y.zip y_fit).map (fun p => (p.1 - p.2) ^ 2)).sum) / (y.length : ℚ)

/-- `math.sqrt(np.mean((y - y_fit) ** 2))`: the RMS error of one data
set. -/
noncomputable def rmsOf (y y_fit : List ℚ) : ℝ :=
  Real.sqrt ((meanSq y y_fit : ℚ) : ℝ)

/-- Model of `Fitter.EvaluateFitError(strip_dims = False)`: per data set,
the RMS error over the (range-filtered) points of `EvaluateFit`. -/
noncomputable def EvaluateFitError (F : Fitter) (h : Heap) : Option (List ℝ) :=
  (EvaluateFit F h).map (List.map (fun t => rmsOf t.2.1 t.2.2))

/-- Model of `Fitter.EvaluateNew(x, strip_dims = False)`: evaluates every
registered function on the caller-supplied `x`, ignoring the fit range.
The list comprehension is the same as the one in
`CompositeFunction.EvaluateIndividual`, so the same helper is reused. -/
def EvaluateNew (F : Fitter) (h : Heap) (x : List ℚ) : Option (List (List ℚ)) :=
  EvaluateChildren h F.func_set x

/-- The inner loop of `Fitter._GetFitParamsList`: append each parameter not
already present (`if param not in params_list: params_list.append(param)`;
`Parameter` does not override `__eq__`, so membership is object
identity). -/
def addUnique (acc : List Ref) : List Ref → List Ref
  | [] => acc
  | p :: rest =>
    if p ∈ acc then addUnique acc rest else addUnique (acc ++ [p]) rest

/-- Model of `Fitter._GetFitParamsList`: walks the function set in order,
collects each function's `GetParamsList(fit_only = True)` and accumulates
the unique `Parameter` objects in first-seen order. -/
def GetFitParamsList (F : Fitter) (h : Heap) : List Ref :=
  F.func_set.foldl (fun acc f => addUnique acc (GetParamsList h true f)) []

/-- The update loop of `Fitter._FitFunction`: `for param, val in zip(params,
param_vals): param.Value = val` (the bounded setter stores the value
unconditionally; a possible out-of-bounds warning is non-fatal). -/
def writeVals (h : Heap) : List Ref → List ℚ → Heap
  | p :: ps, v :: vs => writeVals (hSetValue h p v) ps vs
  | _, _ => h

/-- Model of `Fitter._FitFunction(param_vals)`, the objective handed to the
external minimizer: asserts that the trial vector's length equals the
free-parameter count, writes each trial value into the corresponding
`Parameter`, and returns `np.mean(self.EvaluateFitError(strip_dims =
False))`.  Returns the updated heap together with the objective value. -/
noncomputable def FitFunction (F : Fitter) (h : Heap) (param_vals : List ℚ) :
    Option (Heap × ℝ) :=
  let params := GetFitParamsList F h
  if params.length = param_vals.length then
    let h' := writeVals h params param_vals
    (EvaluateFitError F h').map (fun es => (h', es.sum / (es.length : ℝ)))
  else
    none

/-! ## The `strip_dims` presentation rule -/

/-- The result shape of the public `Fitter` accessors: either a single
unwrapped result or a list of results. -/
inductive Strip (α : Type) : Type where
  | one : α → Strip α
  | many : List α → Strip α
deriving DecidableEq

/-- The tail of each public accessor: `if strip_dims and len(l) == 1:
return l[0] else: return l`. -/
def stripDims {α : Type} : Bool → List α → Strip α
  | true, [a] => Strip.one a
  | _, l => Strip.many l

/-- `Fitter.EvaluateFit(strip_dims)` including the presentation rule. -/
def EvaluateFitStripped (F : Fitter) (h : Heap) (strip_dims : Bool) :
    Option (Strip (List ℚ × List ℚ × List ℚ)) :=
  (EvaluateFit F h).map (stripDims strip_dims)

/-- `Fitter.EvaluateFitError(strip_dims)` including the presentation
rule. -/
noncomputable def EvaluateFitErrorStripped (F : Fitter) (h : Heap)
    (strip_dims : Bool) : Option (Strip ℝ) :=
  (EvaluateFitError F h).map (stripDims strip_dims)

/-- `Fitter.EvaluateNew(x, strip_dims)` including the presentation rule. -/
def EvaluateNewStripped (F : Fitter) (h : Heap) (x : List ℚ)
    (strip_dims : Bool) : Option (Strip (List ℚ)) :=
  (EvaluateNew F h x).map (stripDims strip_dims)

/-! ## Reference specification of first-occurrence deduplication

`firstDedup` is the textbook form of identity deduplication: keep the first
occurrence of every element, drop the rest.  `Fitter._GetFitParamsList` is
proved below to compute exactly this on the concatenated fit-only parameter
lists. -/

/-- Keep the first occurrence of each element, in order. -/
def firstDedup : List Ref → List Ref
  | [] => []
  | a :: l => a :: firstDedup (l.filter (fun b => decide (b ≠ a)))
termination_by l => l.length
decreasing_by
  simp only [List.length_cons]
  exact Nat.lt_succ_of_le (List.length_filter_le _ _)

/-! ## Concrete instances used in witnesses and counterexamples -/

/-- A concrete heap with all cells at their defaults, used in the concrete
instances below. -/
def h0 : Heap := fun _ => default

/-- The identity evaluator `f(x, *params) = x`, used in the concrete
instances below. -/
def evalId : Evaluator := fun x _ => x

/-- A one-data-set Fitter over `x = [1..5]` with fit range `(2, 4)`. -/
def F45 : Fitter where
  data_sets := [([1, 2, 3, 4, 5], [1, 2, 3, 4, 5])]
  func_set := [FitFunc.leaf evalId []]
  fit_range := some (2, 4)

/-- The same Fitter with the non-overlapping fit range `(10, 20)`. -/
def F1020 : Fitter where
  data_sets := [([1, 2, 3, 4, 5], [1, 2, 3, 4, 5])]
  func_set := [FitFunc.leaf evalId []]
  fit_range := some (10, 20)

/-- Two data sets paired with a single function: accepted by the constructor
(see the C5 counterexample) and then silently truncated by `zip`. -/
def F21 : Fitter where
  data_sets := [([1], [1]), ([2], [2])]
  func_set := [FitFunc.leaf evalId []]
  fit_range := none

/-- A single data set with a single function. -/
def F11 : Fitter where
  data_sets := [([1], [2])]
  func_set := [FitFunc.leaf evalId []]
  fit_range := none

/-- A single data set with a single one-parameter function (the parameter is
the heap cell at reference 0). -/
def F2 : Fitter where
  data_sets := [([0], [0])]
  func_set := [FitFunc.leaf evalId [0]]
  fit_range := none

/-- The two-data-set input of the construction counterexample. -/
def dss2 : List (List ℚ × List ℚ) := [([1], [1]), ([2], [2])]

/-- The one-function input of the construction counterexample. -/
def fs1 : List FObj := [Sum.inl (FitFunc.leaf evalId [])]

theorem firstDedup_nil : firstDedup [] = [] := by
  simp [firstDedup]

theorem firstDedup_cons (a : Ref) (l : List Ref) :
    firstDedup (a :: l) = a :: firstDedup (l.filter (fun b => decide (b ≠ a))) := by
  simp [firstDedup]

theorem mem_firstDedup (r : Ref) (l : List Ref) : r ∈ firstDedup l ↔ r ∈ l := by
  induction l using firstDedup.induct with
  | case1 => simp [firstDedup_nil]
  | case2 a t ih =>
    rw [firstDedup_cons]
    constructor
    · intro hr
      rcases List.mem_cons.mp hr with h1 | h1
      · exact h1 ▸ List.mem_cons_self a t
      · have := (ih.mp h1)
        exact List.mem_cons_of_mem a (List.mem_of_mem_filter this)
    · intro hr
      rcases List.mem_cons.mp hr with h1 | h1
      · exact h1 ▸ List.mem_cons_self _ _
      · by_cases hra : r = a
        · exact hra ▸ List.mem_cons_self _ _
        · refine List.mem_cons_of_mem a (ih.mpr ?_)
          exact List.mem_filter.mpr ⟨h1, by simpa using hra⟩

theorem firstDedup_nodup (l : List Ref) : (firstDedup l).Nodup := by
  induction l using firstDedup.induct with
  | case1 => simp [firstDedup_nil]
  | case2 a t ih =>
    rw [firstDedup_cons]
    refine List.nodup_cons.mpr ⟨?_, ih⟩
    intro hmem
    have := (mem_firstDedup a _).mp hmem
    have := List.of_mem_filter this
    simp at this

theorem firstDedup_sublist (l : List Ref) : (firstDedup l).Sublist l := by
  induction l using firstDedup.induct with
  | case1 => simp [firstDedup_nil]
  | case2 a t ih =>
    rw [firstDedup_cons]
    exact (ih.trans (List.filter_sublist t)).cons₂ a

theorem addUnique_nil (acc : List Ref) : addUnique acc [] = acc := by
  simp [addUnique]

/-- `addUnique` runs left to right, so processing a concatenation is
processing the pieces in turn. -/
theorem addUnique_append (acc : List Ref) (l1 l2 : List Ref) :
    addUnique acc (l1 ++ l2) = addUnique (addUnique acc l1) l2 := by
  induction l1 generalizing acc with
  | nil => simp [addUnique]
  | cons p t ih =>
    by_cases hp : p ∈ acc <;> simp [addUnique, hp, ih]

/-- The accumulation loop of `_GetFitParamsList` computes first-occurrence
deduplication relative to what has been seen so far. -/
theorem addUnique_eq_firstDedup (acc : List Ref) (l : List Ref) :
    addUnique acc l = acc ++ firstDedup (l.filter (fun b => decide (b ∉ acc))) := by
  induction l generalizing acc with
  | nil => simp [addUnique, firstDedup_nil]
  | cons a t ih =>
    by_cases ha : a ∈ acc
    · rw [show addUnique acc (a :: t) = addUnique acc t from by simp [addUnique, ha]]
      rw [ih]
      congr 2
      simp [ha]
    · rw [show addUnique acc (a :: t) = addUnique (acc ++ [a]) t from by
        simp [addUnique, ha]]
      rw [ih]
      have hfil : t.filter (fun b => decide (b ∉ acc ++ [a]))
          = (t.filter (fun b => decide (b ∉ acc))).filter (fun b => decide (b ≠ a)) := by
        rw [List.filter_filter]
        refine List.filter_congr ?_
        intro b _
        by_cases hba : b = a <;> by_cases hbacc : b ∈ acc <;>
          simp [hba, hbacc]
      rw [hfil]
      have : (a :: t).filter (fun b => decide (b ∉ acc))
          = a :: t.filter (fun b => decide (b ∉ acc)) := by
        simp [ha]
      rw [this, firstDedup_cons]
      simp

/-- The outer loop of `_GetFitParamsList` over the function set, folded into
one `addUnique` pass over the concatenation of the per-function lists. -/
theorem foldl_addUnique (g : FitFunc → List Ref) (fs : List FitFunc) (acc : List Ref) :
    fs.foldl (fun a f => addUnique a (g f)) acc = addUnique acc ((fs.map g).flatten) := by
  induction fs generalizing acc with
  | nil => simp [addUnique_nil]
  | cons f t ih =>
    simp only [List.foldl_cons, List.map_cons, List.flatten_cons]
    rw [addUnique_append, ih]

/-- `_GetFitParamsList` computes first-occurrence deduplication of the
concatenated fit-only parameter lists. -/
theorem getFitParamsList_eq (F : Fitter) (h : Heap) :
    GetFitParamsList F h
      = firstDedup ((F.func_set.map (GetParamsList h true)).flatten) := by
  unfold GetFitParamsList
  rw [foldl_addUnique, addUnique_eq_firstDedup]
  simp [Function.comp_def, List.filter_true]

theorem getFitParamsList_nodup (F : Fitter) (h : Heap) :
    (GetFitParamsList F h).Nodup := by
  rw [getFitParamsList_eq]
  exact firstDedup_nodup _

/-! ## Heap-update lemmas for the objective function -/

theorem hSetValue_same (h : Heap) (p : Ref) (v : ℚ) :
    hSetValue h p v p = { h p with val := v } := by
  simp [hSetValue, hUpdate]

theorem hSetValue_other (h : Heap) (p : Ref) (v : ℚ) (r : Ref) (hr : r ≠ p) :
    hSetValue h p v r = h r := by
  simp [hSetValue, hUpdate, hr]

/-- References outside the written list are untouched. -/
theorem writeVals_not_mem (h : Heap) (ps : List Ref) (vs : List ℚ) (r : Ref)
    (hr : r ∉ ps) : writeVals h ps vs r = h r := by
  induction ps generalizing h vs with
  | nil => simp [writeVals]
  | cons p ps' ih =>
    cases vs with
    | nil => simp [writeVals]
    | cons v vs' =>
      have hrp : r ≠ p := fun hc => hr (hc ▸ List.mem_cons_self p ps')
      have hr' : r ∉ ps' := fun hc => hr (List.mem_cons_of_mem p hc)
      rw [show writeVals h (p :: ps') (v :: vs') = writeVals (hSetValue h p v) ps' vs'
        from by simp [writeVals]]
      rw [ih (hSetValue h p v) vs' hr', hSetValue_other h p v r hrp]

/-- Writing a value list into a duplicate-free reference list updates exactly
the `i`-th reference with the `i`-th value and changes nothing else about the
cell. -/
theorem writeVals_get (h : Heap) (ps : List Ref) (vs : List ℚ) (nd : ps.Nodup)
    (hlen : ps.length = vs.length) (i : Nat) (hi : i < ps.length) :
    writeVals h ps vs (ps.get ⟨i, hi⟩)
      = { h (ps.get ⟨i, hi⟩) with val := vs.get ⟨i, hlen ▸ hi⟩ } := by
  induction ps generalizing h vs i with
  | nil => simp at hi
  | cons p ps' ih =>
    cases vs with
    | nil => simp at hlen
    | cons v vs' =>
      have hstep : writeVals h (p :: ps') (v :: vs') = writeVals (hSetValue h p v) ps' vs' := by
        simp [writeVals]
      have hpnotmem : p ∉ ps' := (List.nodup_cons.mp nd).1
      have nd' : ps'.Nodup := (List.nodup_cons.mp nd).2
      cases i with
      | zero =>
        rw [hstep]
        show writeVals (hSetValue h p v) ps' vs' p = _
        rw [writeVals_not_mem _ _ _ _ hpnotmem, hSetValue_same]
        rfl
      | succ j =>
        have hj : j < ps'.length := Nat.lt_of_succ_lt_succ hi
        have hlen' : ps'.length = vs'.length := Nat.succ_injective hlen
        rw [hstep]
        show writeVals (hSetValue h p v) ps' vs' (ps'.get ⟨j, hj⟩) = _
        rw [ih (hSetValue h p v) vs' nd' hlen' j hj]
        have hne : ps'.get ⟨j, hj⟩ ≠ p := by
          intro hc
          exact hpnotmem (hc ▸ List.get_mem ps' j hj)
        rw [hSetValue_other h p v _ hne]
        rfl

/-! ## Range-mask lemmas -/

/-- Masking `x` by its own range mask is exactly filtering `x` to the points
inside the closed interval. -/
theorem applyMask_rangeMask (lo hi : ℚ) (x : List ℚ) :
    applyMask (rangeMask lo hi x) x
      = x.filter (fun v => decide (lo ≤ v) && decide (v ≤ hi)) := by
  induction x with
  | nil => rfl
  | cons a t ih =>
    cases hb : (decide (lo ≤ a) && decide (a ≤ hi)) with
    | true => simpa [rangeMask, applyMask, List.filter_cons, hb] using ih
    | false => simpa [rangeMask, applyMask, List.filter_cons, hb] using ih

/-- `mask.sum()` counts the retained points: it equals the length of the
filtered list. -/
theorem count_rangeMask (lo hi : ℚ) (x : List ℚ) :
    (rangeMask lo hi x).count true
      = (x.filter (fun v => decide (lo ≤ v) && decide (v ≤ hi))).length := by
  induction x with
  | nil => rfl
  | cons a t ih =>
    simp only [rangeMask, List.map_cons] at ih ⊢
    cases hb : (decide (lo ≤ a) && decide (a ≤ hi)) with
    | true => simp [List.count_cons, List.filter_cons, hb, ih]
    | false => simp [List.count_cons, List.filter_cons, hb, ih]

/-- Masking equal-length `x` and `y` by the range mask of `x` retains exactly
the `(x, y)` pairs whose `x` lies inside the closed interval. -/
theorem zip_applyMask_rangeMask (lo hi : ℚ) (x y : List ℚ)
    (hlen : x.length = y.length) :
    (applyMask (rangeMask lo hi x) x).zip (applyMask (rangeMask lo hi x) y)
      = (x.zip y).filter (fun p => decide (lo ≤ p.1) && decide (p.1 ≤ hi)) := by
  induction x generalizing y with
  | nil =>
    cases y with
    | nil => rfl
    | cons b u => simp at hlen
  | cons a t ih =>
    cases y with
    | nil => simp at hlen
    | cons b u =>
      have hlen' : t.length = u.length := Nat.succ_injective hlen
      cases hb : (decide (lo ≤ a) && decide (a ≤ hi)) with
      | true =>
        simpa [rangeMask, applyMask, List.filter_cons, hb] using ih u hlen'
      | false =>
        simpa [rangeMask, applyMask, List.filter_cons, hb] using ih u hlen'

/-! ## Loop lemmas for `EvaluateFit` and `EvaluateNew` -/

/-- The `EvaluateFit` loop succeeds with `ts` exactly when it succeeds entry
by entry. -/
theorem evalPairs_eq_some_iff (h : Heap) (fr : Option (ℚ × ℚ))
    (l : List ((List ℚ × List ℚ) × FitFunc)) (ts : List (List ℚ × List ℚ × List ℚ)) :
    evalPairs h fr l = some ts
      ↔ List.Forall₂ (fun pf t => evalDataSet h fr pf.1 pf.2 = some t) l ts := by
  induction l generalizing ts with
  | nil =>
    cases ts <;> simp [evalPairs]
  | cons pf rest ih =>
    cases hed : evalDataSet h fr pf.1 pf.2 with
    | none =>
      cases ts <;> simp [evalPairs, hed]
    | some t0 =>
      cases hep : evalPairs h fr rest with
      | none =>
        cases ts with
        | nil => simp [evalPairs, hed, hep]
        | cons t1 ts' =>
          simp only [evalPairs, hed, hep, List.forall₂_cons]
          constructor
          · intro hc; cases hc
          · rintro ⟨-, hf⟩
            exact absurd ((ih ts').mpr hf) (by simp [hep])
      | some ts0 =>
        cases ts with
        | nil =>
          simp only [evalPairs, hed, hep]
          constructor
          · intro hc; cases hc
          · intro hc; cases hc
        | cons t1 ts' =>
          simp only [evalPairs, hed, hep, Option.some_inj, List.cons_eq_cons,
            List.forall₂_cons]
          constructor
          · rintro ⟨h1, h2⟩
            exact ⟨h1, (ih ts').mp (by rw [← h2]; exact hep)⟩
          · rintro ⟨h1, h2⟩
            have h3 := (ih ts').mpr h2
            rw [hep] at h3
            exact ⟨h1, Option.some_inj.mp h3⟩

/-- A single failing entry makes the whole `EvaluateFit` loop fail. -/
theorem evalPairs_none_of_mem (h : Heap) (fr : Option (ℚ × ℚ))
    (l : List ((List ℚ × List ℚ) × FitFunc)) (pf : (List ℚ × List ℚ) × FitFunc)
    (hmem : pf ∈ l) (hnone : evalDataSet h fr pf.1 pf.2 = none) :
    evalPairs h fr l = none := by
  induction l with
  | nil => cases hmem
  | cons q rest ih =>
    rcases List.mem_cons.mp hmem with hq | hq
    · subst hq
      simp [evalPairs, hnone]
    · cases hqd : evalDataSet h fr q.1 q.2 <;>
        simp [evalPairs, hqd, ih hq]

/-- The `EvaluateNew` / `EvaluateIndividual` loop succeeds with `ls` exactly
when every function evaluates, in order. -/
theorem evaluateChildren_eq_some_iff (h : Heap) (cs : List FitFunc) (x : List ℚ)
    (ls : List (List ℚ)) :
    EvaluateChildren h cs x = some ls
      ↔ List.Forall₂ (fun c l => Evaluate h c x = some l) cs ls := by
  induction cs generalizing ls with
  | nil =>
    cases ls <;> simp [EvaluateChildren]
  | cons c rest ih =>
    cases hec : Evaluate h c x with
    | none =>
      cases ls <;> simp [EvaluateChildren, hec]
    | some l0 =>
      cases hcs : EvaluateChildren h rest x with
      | none =>
        cases ls with
        | nil => simp [EvaluateChildren, hec, hcs]
        | cons l1 ls' =>
          simp only [EvaluateChildren, hec, hcs, List.forall₂_cons]
          constructor
          · intro hc; cases hc
          · rintro ⟨-, hf⟩
            exact absurd ((ih ls').mpr hf) (by simp [hcs])
      | some ls0 =>
        cases ls with
        | nil =>
          simp only [EvaluateChildren, hec, hcs]
          constructor
          · intro hc; cases hc
          · intro hc; cases hc
        | cons l1 ls' =>
          simp only [EvaluateChildren, hec, hcs, Option.some_inj, List.cons_eq_cons,
            List.forall₂_cons]
          constructor
          · rintro ⟨h1, h2⟩
            exact ⟨h1, (ih ls').mp (by rw [← h2]; exact hcs)⟩
          · rintro ⟨h1, h2⟩
            have h3 := (ih ls').mpr h2
            rw [hcs] at h3
            exact ⟨h1, Option.some_inj.mp h3⟩

/-! ## Elementwise characterisation of `sumLists` -/

theorem sumLists_length (ls : List (List ℚ)) (L : ℕ) (hne : ls ≠ [])
    (hl : ∀ l ∈ ls, l.length = L) : (sumLists ls).length = L := by
  induction ls with
  | nil => exact absurd rfl hne
  | cons l t ih =>
    cases t with
    | nil => simpa [sumLists] using hl l (List.mem_cons_self l [])
    | cons l2 t2 =>
      have h1 : l.length = L := hl l (List.mem_cons_self _ _)
      have h2 : (sumLists (l2 :: t2)).length = L := by
        refine ih (by simp) ?_
        intro m hm
        exact hl m (List.mem_cons_of_mem l hm)
      simp [sumLists, h1, h2]

/-- `np.sum(rows, axis = 0)` really is the elementwise sum: at every
position `j`, the result is the sum of the rows' entries at `j`. -/
theorem sumLists_getD (ls : List (List ℚ)) (L : ℕ) (hne : ls ≠ [])
    (hl : ∀ l ∈ ls, l.length = L) (j : ℕ) (hj : j < L) :
    (sumLists ls).getD j 0 = (ls.map (fun l => l.getD j 0)).sum := by
  induction ls with
  | nil => exact absurd rfl hne
  | cons l t ih =>
    cases t with
    | nil => simp [sumLists]
    | cons l2 t2 =>
      have h1 : l.length = L := hl l (List.mem_cons_self _ _)
      have htl : ∀ m ∈ l2 :: t2, m.length = L := fun m hm =>
        hl m (List.mem_cons_of_mem l hm)
      have h2 : (sumLists (l2 :: t2)).length = L := sumLists_length _ L (by simp) htl
      have hjl : j < l.length := h1 ▸ hj
      have hjs : j < (sumLists (l2 :: t2)).length := h2 ▸ hj
      have hzip : j < (List.zipWith (· + ·) l (sumLists (l2 :: t2))).length := by
        simp [List.length_zipWith]
        omega
      rw [show sumLists (l :: l2 :: t2)
          = List.zipWith (· + ·) l (sumLists (l2 :: t2)) from by simp [sumLists]]
      rw [List.getD_eq_getElem _ _ hzip, List.getElem_zipWith,
        ← List.getD_eq_getElem l 0 hjl, ← List.getD_eq_getElem _ 0 hjs,
        ih (by simp) htl]
      simp

/-! ## Constructor-check lemmas -/

theorem checkDataSets_iff (dss : List (List ℚ × List ℚ)) :
    checkDataSets dss = true
      ↔ ∀ p ∈ dss, 0 < p.1.length ∧ p.1.length = p.2.length := by
  induction dss with
  | nil => simp [checkDataSets]
  | cons p t ih =>
    obtain ⟨x, y⟩ := p
    simp [checkDataSets, ih, Bool.and_eq_true, and_assoc]

theorem checkFuncs_map_inl (fs : List FitFunc) :
    checkFuncs (fs.map Sum.inl) = some fs := by
  induction fs with
  | nil => rfl
  | cons f t ih => simp [checkFuncs, ih]

theorem checkFuncs_some (fs : List FObj) (l : List FitFunc)
    (hs : checkFuncs fs = some l) : fs = l.map Sum.inl := by
  induction fs generalizing l with
  | nil =>
    simp [checkFuncs] at hs
    simp [← hs]
  | cons fo t ih =>
    cases fo with
    | inl f =>
      cases hct : checkFuncs t with
      | none => rw [checkFuncs, hct] at hs; cases hs
      | some l' =>
        rw [checkFuncs, hct] at hs
        simp only [Option.map_some', Option.some_inj] at hs
        rw [← hs]
        simp [ih l' hct]
    | inr u => rw [checkFuncs] at hs; cases hs

theorem checkFuncs_none_of_inr (fs : List FObj) (u : Unit)
    (hmem : Sum.inr u ∈ fs) : checkFuncs fs = none := by
  induction fs with
  | nil => cases hmem
  | cons fo t ih =>
    rcases List.mem_cons.mp hmem with h1 | h1
    · rw [← h1, checkFuncs]
    · cases fo with
      | inl f => rw [checkFuncs, ih h1]; rfl
      | inr w => rw [checkFuncs]

/-! ## Factory lemmas -/

theorem toRefs_map_inl (rs : List Ref) : toRefs (rs.map Sum.inl) = some rs := by
  induction rs with
  | nil => rfl
  | cons r t ih => simp [toRefs, ih]

theorem toRefs_some (l : List PInit) (rs : List Ref) (hs : toRefs l = some rs) :
    l = rs.map Sum.inl := by
  induction l generalizing rs with
  | nil =>
    simp [toRefs] at hs
    simp [← hs]
  | cons e t ih =>
    cases e with
    | inl r =>
      cases hct : toRefs t with
      | none => rw [toRefs, hct] at hs; cases hs
      | some rs' =>
        rw [toRefs, hct] at hs
        simp only [Option.map_some', Option.some_inj] at hs
        rw [← hs]
        simp [ih rs' hct]
    | inr q => rw [toRefs] at hs; cases hs

/-- No entry of `p_init` is a bare scalar exactly when the whole list is a
list of `Parameter` references. -/
theorem not_any_isRight (l : List PInit) (hna : l.any (fun e => e.isRight) = false) :
    ∃ rs : List Ref, l = rs.map Sum.inl := by
  induction l with
  | nil => exact ⟨[], rfl⟩
  | cons e t ih =>
    rw [List.any_cons, Bool.or_eq_false_iff] at hna
    obtain ⟨h1, h2⟩ := hna
    obtain ⟨rs, hrs⟩ := ih h2
    cases e with
    | inl r => exact ⟨r :: rs, by simp [hrs]⟩
    | inr q => simp [Sum.isRight] at h1

theorem map_inl_any_isRight (rs : List Ref) :
    ((rs.map Sum.inl : List PInit).any (fun e => e.isRight)) = false := by
  induction rs with
  | nil => rfl
  | cons r t ih => simp [List.any_cons, ih, Sum.isRight]

theorem wrapParams_length (p_init : List PInit) (h : Heap) (next : Ref) (i : ℕ)
    (p_fit : Option (List Bool)) (p_bounds : Option (List (Option ℚ × Option ℚ))) :
    (wrapParams h next i p_fit p_bounds p_init).1.length = p_init.length := by
  induction p_init generalizing h next i with
  | nil => rfl
  | cons e t ih =>
    cases e with
    | inl r => simp [wrapParams, ih]
    | inr q => simp [wrapParams, ih]

/-- Entries of `p_init` that are already `Parameter` objects are carried
through the wrapping loop unchanged, at their positions. -/
theorem wrapParams_get_inl (p_init : List PInit) (h : Heap) (next : Ref) (i : ℕ)
    (p_fit : Option (List Bool)) (p_bounds : Option (List (Option ℚ × Option ℚ)))
    (j : ℕ) (r : Ref) (hj : j < p_init.length)
    (hj' : j < (wrapParams h next i p_fit p_bounds p_init).1.length)
    (hget : p_init.get ⟨j, hj⟩ = Sum.inl r) :
    (wrapParams h next i p_fit p_bounds p_init).1.get ⟨j, hj'⟩ = r := by
  induction p_init generalizing h next i j with
  | nil => simp at hj
  | cons e t ih =>
    cases e with
    | inl r0 =>
      cases j with
      | zero =>
        have h1 : r0 = r := by simpa using hget
        simp [wrapParams, h1]
      | succ k =>
        have hk : k < t.length := Nat.lt_of_succ_lt_succ hj
        simp only [wrapParams]
        show (wrapParams h next (i + 1) p_fit p_bounds t).1.get ⟨k, _⟩ = r
        exact ih h next (i + 1) k hk (by rw [wrapParams_length]; exact hk) hget
    | inr q =>
      cases j with
      | zero => simp only [List.get] at hget; cases hget
      | succ k =>
        have hk : k < t.length := Nat.lt_of_succ_lt_succ hj
        simp only [wrapParams]
        show (wrapParams _ (next + 1) (i + 1) p_fit p_bounds t).1.get ⟨k, _⟩ = r
        exact ih _ (next + 1) (i + 1) k hk (by rw [wrapParams_length]; exact hk) hget

/-! ## Per-claim theorems -/

/-- **C1.** For every Fitter, the free-parameter collection walks all stored
functions in order, collects each function's fit-only parameter list
(`GetParamsList h true`), and returns the first-occurrence deduplication by
object identity of their concatenation: the result is duplicate-free, is an
order-preserving sublist of the concatenation, and contains each `Parameter`
object of the concatenation exactly once. -/
theorem claim_C1 (F : Fitter) (h : Heap) :
    GetFitParamsList F h
      = firstDedup ((F.func_set.map (GetParamsList h true)).flatten) ∧
    (GetFitParamsList F h).Nodup ∧
    (GetFitParamsList F h).Sublist ((F.func_set.map (GetParamsList h true)).flatten) ∧
    ∀ r : Ref, (GetFitParamsList F h).count r
      = if r ∈ (F.func_set.map (GetParamsList h true)).flatten then 1 else 0 := by
  refine ⟨getFitParamsList_eq F h, getFitParamsList_nodup F h, ?_, ?_⟩
  · rw [getFitParamsList_eq]
    exact firstDedup_sublist _
  · intro r
    rw [getFitParamsList_eq]
    by_cases hr : r ∈ (F.func_set.map (GetParamsList h true)).flatten
    · rw [if_pos hr]
      exact List.count_eq_one_of_mem (firstDedup_nodup _) ((mem_firstDedup r _).mpr hr)
    · rw [if_neg hr]
      exact List.count_eq_zero_of_not_mem (fun hc => hr ((mem_firstDedup r _).mp hc))

theorem getParamsListChildren_eq (h : Heap) (fo : Bool) (cs : List FitFunc) :
    GetParamsListChildren h fo cs = (cs.map (GetParamsList h fo)).flatten := by
  induction cs with
  | nil => rfl
  | cons c t ih => simp [GetParamsListChildren, ih]

theorem count_flatten_getParams (h : Heap) (fo : Bool) (cs : List FitFunc) (r : Ref) :
    ((cs.map (GetParamsList h fo)).flatten).count r
      = (cs.map (fun c => (GetParamsList h fo c).count r)).sum := by
  induction cs with
  | nil => rfl
  | cons c t ih => simp [List.count_append, ih]

/-- **C3.** For a CompositeFunction with children `cs` and non-empty `x`:
if the children evaluate to the rows `ls`, the composite evaluates to their
elementwise sum (`sumLists ls`, which at every position is the sum of the
children's entries); and `GetParamsList` concatenates the children's lists in
child order with no deduplication (each object's multiplicity is the sum of
the children's multiplicities). -/
theorem claim_C3 (h : Heap) :
    (∀ (cs : List FitFunc) (x : List ℚ) (ls : List (List ℚ)),
       x ≠ [] →
       List.Forall₂ (fun c l => Evaluate h c x = some l) cs ls →
       Evaluate h (FitFunc.comp cs) x = some (sumLists ls) ∧
       (ls ≠ [] → (∀ l ∈ ls, l.length = x.length) →
         (sumLists ls).length = x.length ∧
         ∀ j : ℕ, j < x.length →
           (sumLists ls).getD j 0 = (ls.map (fun l => l.getD j 0)).sum)) ∧
    (∀ (fo : Bool) (cs : List FitFunc),
       GetParamsList h fo (FitFunc.comp cs) = (cs.map (GetParamsList h fo)).flatten ∧
       ∀ r : Ref, (GetParamsList h fo (FitFunc.comp cs)).count r
         = (cs.map (fun c => (GetParamsList h fo c).count r)).sum) := by
  constructor
  · intro cs x ls hx hf
    constructor
    · have hchild : EvaluateChildren h cs x = some ls :=
        (evaluateChildren_eq_some_iff h cs x ls).mpr hf
      have hxlen : 0 < x.length := List.length_pos.mpr hx
      simp [Evaluate, hxlen, hchild]
    · intro hne hl
      exact ⟨sumLists_length ls x.length hne hl,
        fun j hj => sumLists_getD ls x.length hne hl j hj⟩
  · intro fo cs
    have heq : GetParamsList h fo (FitFunc.comp cs)
        = (cs.map (GetParamsList h fo)).flatten := by
      rw [GetParamsList]
      exact getParamsListChildren_eq h fo cs
    refine ⟨heq, fun r => ?_⟩
    rw [heq]
    exact count_flatten_getParams h fo cs r

/-- **C3 witness**: two identity leaves over `x = [1, 2]` sum to `[2, 4]`. -/
theorem claim_C3_witness :
    Evaluate h0 (FitFunc.comp [FitFunc.leaf evalId [], FitFunc.leaf evalId []]) [1, 2]
      = some [2, 4] := by
  have h := ((claim_C3 h0).1 [FitFunc.leaf evalId [], FitFunc.leaf evalId []]
    [1, 2] [[1, 2], [1, 2]] (by simp)
    (List.Forall₂.cons rfl (List.Forall₂.cons rfl List.Forall₂.nil))).1
  rw [h]
  norm_num [sumLists]

/-- **C6 (corrected).** `CompositeFunction.Evaluate` fails on empty `x`; a
plain `Function.Evaluate` performs no emptiness check and simply calls the
evaluator with `x` and the parameters' current values in declaration order;
its result length equals `len(x)` whenever the evaluator is
length-preserving. -/
theorem claim_C6_amended :
    (∀ (h : Heap) (f : Evaluator) (ps : List Ref) (x : List ℚ),
       Evaluate h (FitFunc.leaf f ps) x = some (f x (ps.map (fun r => (h r).val)))) ∧
    (∀ (h : Heap) (cs : List FitFunc), Evaluate h (FitFunc.comp cs) [] = none) ∧
    (∀ (h : Heap) (f : Evaluator),
       (∀ (x vs : List ℚ), (f x vs).length = x.length) →
       ∀ (ps : List Ref) (x : List ℚ),
         ∃ l, Evaluate h (FitFunc.leaf f ps) x = some l ∧ l.length = x.length) :=
  ⟨fun _ _ _ _ => rfl, fun _ _ => rfl,
   fun h f hf ps x => ⟨f x (ps.map (fun r => (h r).val)), rfl, hf x _⟩⟩

/-- **C6 counterexample**: a plain `Function` evaluated on an empty `x`
succeeds (returning the evaluator's result) instead of failing, contrary to
the claim that every Function fails with `InvalidInput` on empty input. -/
theorem claim_C6_counterexample :
    Evaluate h0 (FitFunc.leaf evalId []) [] = some [] ∧
    Evaluate h0 (FitFunc.leaf evalId []) [] ≠ none := by
  constructor
  · rfl
  · rw [show Evaluate h0 (FitFunc.leaf evalId []) [] = some [] from rfl]
    simp

/-- **C6 witness**: a length-preserving evaluator over `x` of length 3. -/
theorem claim_C6_witness :
    ∃ l, Evaluate h0 (FitFunc.leaf evalId [42]) [1, 2, 3] = some l ∧ l.length = 3 :=
  claim_C6_amended.2.2 h0 evalId (fun _ _ => rfl) [42] [1, 2, 3]

/-- **C7.** Setting a `Parameter` value never fails: the coerced value is
always stored, and the out-of-bounds warning fires exactly when a bound
exists on a side and the (finite) value falls outside it, a missing bound
being unbounded on that side. -/
theorem claim_C7 (v0 : PFloat) (q : ℚ) (lo hi : Option ℚ) (ff : Bool) :
    ((Parameter.mk0 v0 (some (lo.map PFloat.fin, hi.map PFloat.fin)) ff).setValue
        (PFloat.fin q)).1.val = PFloat.fin q ∧
    (((Parameter.mk0 v0 (some (lo.map PFloat.fin, hi.map PFloat.fin)) ff).setValue
        (PFloat.fin q)).2 = true
      ↔ (∃ l, lo = some l ∧ q < l) ∨ (∃ u, hi = some u ∧ u < q)) := by
  constructor
  · rfl
  · cases lo <;> cases hi <;>
      simp [Parameter.mk0, Parameter.setBounds, Parameter.setValue, PFloat.ltb]

/-- **C7 witness**: bounds `(0, 10)`, value `-5`: the value is stored and the
warning fires. -/
theorem claim_C7_witness :
    ((Parameter.mk0 (PFloat.fin 3)
        (some (some (PFloat.fin 0), some (PFloat.fin 10))) true).setValue
      (PFloat.fin (-5))).1.val = PFloat.fin (-5) ∧
    ((Parameter.mk0 (PFloat.fin 3)
        (some (some (PFloat.fin 0), some (PFloat.fin 10))) true).setValue
      (PFloat.fin (-5))).2 = true := by
  have h := claim_C7 (PFloat.fin 3) (-5) (some 0) (some 10) true
  exact ⟨h.1, h.2.mpr (Or.inl ⟨0, rfl, by norm_num⟩)⟩

/-- **C9 (corrected).** The stored value is finite after construction and
after every assignment, provided the initial value and every assigned value
are finite; the code never rejects non-finite values (see the
counterexample). -/
theorem claim_C9_amended (v : PFloat) (bounds : Option (Option PFloat × Option PFloat))
    (ff : Bool) (vs : List PFloat) (hv : v.isFinite = true)
    (hvs : ∀ u ∈ vs, u.isFinite = true) :
    ((Parameter.mk0 v bounds ff).applyValues vs).val.isFinite = true := by
  have key : ∀ (ws : List PFloat) (p : Parameter), p.val.isFinite = true →
      (∀ u ∈ ws, u.isFinite = true) → (p.applyValues ws).val.isFinite = true := by
    intro ws
    induction ws with
    | nil => intro p hp _; exact hp
    | cons u t ih =>
      intro p hp hall
      rw [show p.applyValues (u :: t) = ((p.setValue u).1).applyValues t from rfl]
      exact ih _ (hall u (List.mem_cons_self u t))
        (fun w hw => hall w (List.mem_cons_of_mem u hw))
  exact key vs _ hv hvs

/-- **C9 counterexample**: `Parameter(float('nan'))` constructs successfully
and stores a non-finite value, contradicting the claimed invariant. -/
theorem claim_C9_counterexample :
    ((Parameter.mk0 PFloat.nan none true).val).isFinite = false := rfl

/-- **C9 witness**: a finite initial value and finite assignments stay
finite. -/
theorem claim_C9_witness :
    ((Parameter.mk0 (PFloat.fin 1) none true).applyValues
      [PFloat.fin 2, PFloat.fin (-3)]).val.isFinite = true :=
  claim_C9_amended (PFloat.fin 1) none true [PFloat.fin 2, PFloat.fin (-3)] rfl
    (by decide)

/-- **C10.** If every `p_init` entry is already a `Parameter` object,
`CreateFunction` returns a `Function` referencing exactly those objects, in
order and by identity, with no allocation and with `p_fit`/`p_bounds`
ignored (any values, even of mismatched length, give the same result); in
general, entries that are `Parameter` objects pass through unchanged at
their positions, wrapping being applied only to the others. -/
theorem claim_C10 :
    (∀ (h : Heap) (next : Ref) (f : Evaluator) (rs : List Ref)
       (p_fit : Option (List Bool))
       (p_bounds : Option (List (Option ℚ × Option ℚ))),
       CreateFunction h next f (rs.map Sum.inl) p_fit p_bounds
         = some (FitFunc.leaf f rs, h, next)) ∧
    (∀ (h : Heap) (next : Ref) (f : Evaluator) (p_init : List PInit)
       (p_fit : Option (List Bool))
       (p_bounds : Option (List (Option ℚ × Option ℚ)))
       (fn : FitFunc) (hn : Heap × Ref),
       CreateFunction h next f p_init p_fit p_bounds = some (fn, hn) →
       ∃ rs : List Ref, fn = FitFunc.leaf f rs ∧ rs.length = p_init.length ∧
         ∀ (j : ℕ) (r : Ref) (hj : j < p_init.length) (hj' : j < rs.length),
           p_init.get ⟨j, hj⟩ = Sum.inl r → rs.get ⟨j, hj'⟩ = r) := by
  constructor
  · intro h next f rs p_fit p_bounds
    simp [CreateFunction, map_inl_any_isRight, toRefs_map_inl]
  · intro h next f p_init p_fit p_bounds fn hn hs
    rw [CreateFunction.eq_def] at hs
    cases hw : p_init.any (fun e => e.isRight) with
    | true =>
      rw [hw] at hs
      simp only [if_true] at hs
      split at hs
      · simp only [Option.some_inj, Prod.mk.injEq] at hs
        obtain ⟨hfn, -⟩ := hs
        refine ⟨(wrapParams h next 0 p_fit p_bounds p_init).1, hfn.symm,
          wrapParams_length p_init h next 0 p_fit p_bounds, ?_⟩
        intro j r hj hj' hget
        exact wrapParams_get_inl p_init h next 0 p_fit p_bounds j r hj hj' hget
      · cases hs
    | false =>
      rw [hw] at hs
      obtain ⟨rs, hrs⟩ := not_any_isRight p_init hw
      subst hrs
      rw [toRefs_map_inl] at hs
      simp only [Bool.false_eq_true, if_false, Option.map_some', Option.some_inj,
        Prod.mk.injEq] at hs
      obtain ⟨hfn, -⟩ := hs
      refine ⟨rs, hfn.symm, by simp, ?_⟩
      intro j r hj hj' hget
      simp only [List.get_eq_getElem, List.getElem_map] at hget
      simp only [List.get_eq_getElem]
      simpa using hget

/-- **C10 witness**: two `Parameter` objects pass through by identity. -/
theorem claim_C10_witness :
    ∃ rs : List Ref, FitFunc.leaf evalId [3, 5] = FitFunc.leaf evalId rs ∧
      rs.length = ([Sum.inl 3, Sum.inl 5] : List PInit).length ∧
      ∀ (j : ℕ) (r : Ref) (hj : j < ([Sum.inl 3, Sum.inl 5] : List PInit).length)
        (hj' : j < rs.length),
        ([Sum.inl 3, Sum.inl 5] : List PInit).get ⟨j, hj⟩ = Sum.inl r →
        rs.get ⟨j, hj'⟩ = r :=
  claim_C10.2 h0 0 evalId [Sum.inl 3, Sum.inl 5] none none
    (FitFunc.leaf evalId [3, 5]) (h0, 0)
    (claim_C10.1 h0 0 evalId [3, 5] none none)

/-- **C5 (corrected).** Fitter construction validates each data set (`x` and
`y` non-empty with equal lengths) and that every supplied function entry is a
recognized `Function` object, failing fast otherwise; it does **not** compare
the number of functions with the number of data sets (see the
counterexample). -/
theorem claim_C5_amended :
    (∀ (dss : List (List ℚ × List ℚ)) (fs : List FObj) (fr : Option (ℚ × ℚ))
       (F : Fitter),
       mkFitter dss fs fr = some F →
       F.data_sets = dss ∧ F.fit_range = fr ∧ fs = F.func_set.map Sum.inl ∧
       ∀ p ∈ dss, 0 < p.1.length ∧ p.1.length = p.2.length) ∧
    (∀ (dss : List (List ℚ × List ℚ)) (fs : List FObj) (fr : Option (ℚ × ℚ)),
       ¬(∀ p ∈ dss, 0 < p.1.length ∧ p.1.length = p.2.length) →
       mkFitter dss fs fr = none) ∧
    (∀ (dss : List (List ℚ × List ℚ)) (fs : List FObj) (fr : Option (ℚ × ℚ))
       (u : Unit), Sum.inr u ∈ fs → mkFitter dss fs fr = none) := by
  refine ⟨?_, ?_, ?_⟩
  · intro dss fs fr F hs
    rw [mkFitter] at hs
    cases hcd : checkDataSets dss with
    | false => rw [hcd] at hs; simp at hs
    | true =>
      rw [hcd] at hs
      simp only [if_true] at hs
      cases hcf : checkFuncs fs with
      | none => rw [hcf] at hs; simp at hs
      | some fset =>
        rw [hcf] at hs
        simp only [Option.map_some', Option.some_inj] at hs
        subst hs
        exact ⟨rfl, rfl, by simpa using checkFuncs_some fs fset hcf,
          (checkDataSets_iff dss).mp hcd⟩
  · intro dss fs fr hbad
    have hcd : checkDataSets dss = false := by
      cases hc : checkDataSets dss with
      | false => rfl
      | true => exact absurd ((checkDataSets_iff dss).mp hc) hbad
    simp [mkFitter, hcd]
  · intro dss fs fr u hmem
    cases hcd : checkDataSets dss with
    | false => simp [mkFitter, hcd]
    | true => simp [mkFitter, hcd, checkFuncs_none_of_inr fs u hmem]

/-- **C5 counterexample**: a Fitter with two data sets and a single function
constructs successfully, although the claim says construction must fail when
the function count differs from the data-set count. -/
theorem claim_C5_counterexample :
    mkFitter dss2 fs1 none = some F21 ∧ dss2.length = 2 ∧ fs1.length = 1 :=
  ⟨rfl, rfl, rfl⟩

/-- **C5 witness**: a well-formed one-data-set construction succeeds and
stores its inputs. -/
theorem claim_C5_witness :
    F11.data_sets = [([1], [2])] ∧ F11.fit_range = none ∧
    fs1 = F11.func_set.map Sum.inl ∧
    ∀ p ∈ [(([1] : List ℚ), ([2] : List ℚ))], 0 < p.1.length ∧
      p.1.length = p.2.length :=
  claim_C5_amended.1 [([1], [2])] fs1 none F11 rfl

/-- With a fit range set, a successful per-data-set evaluation returns the
masked `x` and `y`. -/
theorem evalDataSet_some_range (h : Heap) (lo hi : ℚ) (ds : List ℚ × List ℚ)
    (f : FitFunc) (t : List ℚ × List ℚ × List ℚ)
    (hs : evalDataSet h (some (lo, hi)) ds f = some t) :
    t.1 = ds.1.filter (fun v => decide (lo ≤ v) && decide (v ≤ hi)) ∧
    t.2.1 = applyMask (rangeMask lo hi ds.1) ds.2 := by
  rw [evalDataSet] at hs
  by_cases hcnt : 0 < (rangeMask lo hi ds.1).count true
  · rw [if_pos hcnt] at hs
    dsimp only at hs
    cases hev : Evaluate h f (applyMask (rangeMask lo hi ds.1) ds.1) with
    | none => rw [hev] at hs; cases hs
    | some y_fit =>
      rw [hev] at hs
      simp only [Option.map_some', Option.some_inj] at hs
      rw [← hs]
      exact ⟨applyMask_rangeMask lo hi ds.1, rfl⟩
  · rw [if_neg hcnt] at hs
    cases hs

/-- With a fit range set, an empty mask on any data set fails the whole
evaluation. -/
theorem evalDataSet_none_of_empty_filter (h : Heap) (lo hi : ℚ)
    (ds : List ℚ × List ℚ) (f : FitFunc)
    (hempty : ds.1.filter (fun v => decide (lo ≤ v) && decide (v ≤ hi)) = []) :
    evalDataSet h (some (lo, hi)) ds f = none := by
  rw [evalDataSet]
  have hcnt : (rangeMask lo hi ds.1).count true = 0 := by
    rw [count_rangeMask, hempty]
    rfl
  rw [if_neg (by rw [hcnt]; exact Nat.lt_irrefl 0)]

/-- **C4.** When a fit range `(lo, hi)` is set, every evaluation and error
computation restricts each data set to exactly the points with
`lo ≤ x ≤ hi` (both bounds inclusive): the returned `x` is the filter of
the stored `x`, the retained `(x, y)` pairs are exactly those whose `x` is
in range, and an empty filtered subset for any evaluated data set makes the
computation fail; concretely, `x = [1,2,3,4,5]` with range `(2,4)` filters
to `[2,3,4]`, and the non-overlapping range `(10,20)` fails. -/
theorem claim_C4 :
    (∀ (F : Fitter) (h : Heap) (lo hi : ℚ) (ts : List (List ℚ × List ℚ × List ℚ)),
       F.fit_range = some (lo, hi) →
       EvaluateFit F h = some ts →
       EvaluateFitError F h = some (ts.map (fun t => rmsOf t.2.1 t.2.2)) ∧
       ∀ (i : ℕ) (hi1 : i < (F.data_sets.zip F.func_set).length)
         (hi2 : i < ts.length),
         (ts.get ⟨i, hi2⟩).1
             = ((F.data_sets.zip F.func_set).get ⟨i, hi1⟩).1.1.filter
                 (fun v => decide (lo ≤ v) && decide (v ≤ hi)) ∧
         (((F.data_sets.zip F.func_set).get ⟨i, hi1⟩).1.1.length
             = ((F.data_sets.zip F.func_set).get ⟨i, hi1⟩).1.2.length →
           (ts.get ⟨i, hi2⟩).1.zip (ts.get ⟨i, hi2⟩).2.1
             = (((F.data_sets.zip F.func_set).get ⟨i, hi1⟩).1.1.zip
                 ((F.data_sets.zip F.func_set).get ⟨i, hi1⟩).1.2).filter
                 (fun p => decide (lo ≤ p.1) && decide (p.1 ≤ hi)))) ∧
    (∀ (F : Fitter) (h : Heap) (lo hi : ℚ) (pf : (List ℚ × List ℚ) × FitFunc),
       F.fit_range = some (lo, hi) →
       pf ∈ F.data_sets.zip F.func_set →
       pf.1.1.filter (fun v => decide (lo ≤ v) && decide (v ≤ hi)) = [] →
       EvaluateFit F h = none) ∧
    EvaluateFit F45 h0 = some [([2, 3, 4], [2, 3, 4], [2, 3, 4])] ∧
    EvaluateFit F1020 h0 = none := by
  refine ⟨?_, ?_, rfl, rfl⟩
  · intro F h lo hi ts hrange hs
    constructor
    · simp [EvaluateFitError, hs]
    · intro i hi1 hi2
      have hforall := (evalPairs_eq_some_iff h F.fit_range
        (F.data_sets.zip F.func_set) ts).mp hs
      have hget := (List.forall₂_iff_get.mp hforall).2 i hi1 hi2
      rw [hrange] at hget
      obtain ⟨hx, hy⟩ := evalDataSet_some_range h lo hi _ _ _ hget
      refine ⟨hx, fun hlen => ?_⟩
      rw [hx, hy, ← applyMask_rangeMask]
      exact zip_applyMask_rangeMask lo hi _ _ hlen
  · intro F h lo hi pf hrange hmem hempty
    rw [EvaluateFit, hrange]
    exact evalPairs_none_of_mem h (some (lo, hi)) _ pf hmem
      (evalDataSet_none_of_empty_filter h lo hi pf.1 pf.2 hempty)

/-- **C4 witness**: the error computation on the filtered `[2,3,4]` data. -/
theorem claim_C4_witness :
    EvaluateFitError F45 h0
      = some ([([2, 3, 4], [2, 3, 4], [2, 3, 4])].map
          (fun t => rmsOf t.2.1 t.2.2)) :=
  (claim_C4.1 F45 h0 2 4 [([2, 3, 4], [2, 3, 4], [2, 3, 4])] rfl
    claim_C4.2.2.1).1

/-! ## `strip_dims` lemmas -/

theorem stripDims_singleton {α : Type} (a : α) :
    stripDims true [a] = Strip.one a := rfl

theorem stripDims_of_not_single {α : Type} (strip : Bool) (l : List α)
    (hl : strip = false ∨ l.length ≠ 1) : stripDims strip l = Strip.many l := by
  cases strip with
  | false =>
    cases l with
    | nil => rfl
    | cons a t => cases t <;> rfl
  | true =>
    cases l with
    | nil => rfl
    | cons a t =>
      cases t with
      | nil =>
        rcases hl with h1 | h1
        · cases h1
        · simp at h1
      | cons b u => rfl

theorem evaluateFit_length (F : Fitter) (h : Heap)
    (ts : List (List ℚ × List ℚ × List ℚ)) (hs : EvaluateFit F h = some ts) :
    ts.length = min F.data_sets.length F.func_set.length := by
  have hf := (evalPairs_eq_some_iff h F.fit_range (F.data_sets.zip F.func_set)
    ts).mp hs
  have := hf.length_eq
  simpa [List.length_zip] using this.symm

theorem evaluateNew_length (F : Fitter) (h : Heap) (x : List ℚ)
    (ls : List (List ℚ)) (hs : EvaluateNew F h x = some ls) :
    ls.length = F.func_set.length := by
  have hf := (evaluateChildren_eq_some_iff h F.func_set x ls).mp hs
  exact hf.length_eq.symm

/-- **C8 (corrected).** For a Fitter whose function count equals its data-set
count: with exactly one data set, `strip_dims = true` unwraps the single
result of `EvaluateFit` / `EvaluateFitError` / `EvaluateNew`; with two or
more data sets, or with `strip_dims = false`, each operation returns the
full list, with one entry per data set.  (Without the count hypothesis the
claim fails: see the counterexample.) -/
theorem claim_C8_amended (F : Fitter) (h : Heap)
    (hc : F.func_set.length = F.data_sets.length) :
    (∀ ts, EvaluateFit F h = some ts →
       ts.length = F.data_sets.length ∧
       (F.data_sets.length = 1 →
         ∃ t, EvaluateFitStripped F h true = some (Strip.one t)) ∧
       (∀ strip : Bool, 2 ≤ F.data_sets.length ∨ strip = false →
         EvaluateFitStripped F h strip = some (Strip.many ts))) ∧
    (∀ es, EvaluateFitError F h = some es →
       es.length = F.data_sets.length ∧
       (F.data_sets.length = 1 →
         ∃ e, EvaluateFitErrorStripped F h true = some (Strip.one e)) ∧
       (∀ strip : Bool, 2 ≤ F.data_sets.length ∨ strip = false →
         EvaluateFitErrorStripped F h strip = some (Strip.many es))) ∧
    (∀ (x : List ℚ) ls, EvaluateNew F h x = some ls →
       ls.length = F.data_sets.length ∧
       (F.data_sets.length = 1 →
         ∃ l, EvaluateNewStripped F h x true = some (Strip.one l)) ∧
       (∀ strip : Bool, 2 ≤ F.data_sets.length ∨ strip = false →
         EvaluateNewStripped F h x strip = some (Strip.many ls))) := by
  refine ⟨?_, ?_, ?_⟩
  · intro ts hs
    have hlen : ts.length = F.data_sets.length := by
      rw [evaluateFit_length F h ts hs, hc, Nat.min_self]
    refine ⟨hlen, ?_, ?_⟩
    · intro h1
      obtain ⟨t, rfl⟩ := List.length_eq_one.mp (hlen.trans h1)
      exact ⟨t, by rw [EvaluateFitStripped, hs]; rfl⟩
    · intro strip hmulti
      rw [EvaluateFitStripped, hs]
      rw [Option.map_some']
      rw [stripDims_of_not_single strip ts ?_]
      rcases hmulti with h2 | h2
      · right; omega
      · left; exact h2
  · intro es hs
    rw [EvaluateFitError] at hs
    cases hEF : EvaluateFit F h with
    | none => rw [hEF] at hs; cases hs
    | some ts =>
      rw [hEF] at hs
      simp only [Option.map_some', Option.some_inj] at hs
      have hlen : es.length = F.data_sets.length := by
        rw [← hs, List.length_map, evaluateFit_length F h ts hEF, hc,
          Nat.min_self]
      refine ⟨hlen, ?_, ?_⟩
      · intro h1
        obtain ⟨e, rfl⟩ := List.length_eq_one.mp (hlen.trans h1)
        refine ⟨e, ?_⟩
        rw [EvaluateFitErrorStripped, EvaluateFitError, hEF,
          Option.map_some', hs]
        rfl
      · intro strip hmulti
        rw [EvaluateFitErrorStripped, EvaluateFitError, hEF,
          Option.map_some', hs, Option.map_some']
        rw [stripDims_of_not_single strip es ?_]
        rcases hmulti with h2 | h2
        · right; omega
        · left; exact h2
  · intro x ls hs
    have hlen : ls.length = F.data_sets.length := by
      rw [evaluateNew_length F h x ls hs, hc]
    refine ⟨hlen, ?_, ?_⟩
    · intro h1
      obtain ⟨l, rfl⟩ := List.length_eq_one.mp (hlen.trans h1)
      exact ⟨l, by rw [EvaluateNewStripped, hs]; rfl⟩
    · intro strip hmulti
      rw [EvaluateNewStripped, hs, Option.map_some']
      rw [stripDims_of_not_single strip ls ?_]
      rcases hmulti with h2 | h2
      · right; omega
      · left; exact h2

/-- **C8 counterexample**: with two data sets but a single function (a
Fitter the constructor accepts), `EvaluateFit(strip_dims=True)` returns a
single unwrapped tuple — not a sequence with one entry per data set — and
`strip_dims=False` returns a one-entry sequence for two data sets. -/
theorem claim_C8_counterexample :
    F21.data_sets.length = 2 ∧
    EvaluateFitStripped F21 h0 true = some (Strip.one ([1], [1], [1])) ∧
    (∀ l : List (List ℚ × List ℚ × List ℚ),
      EvaluateFitStripped F21 h0 true ≠ some (Strip.many l)) ∧
    EvaluateFitStripped F21 h0 false = some (Strip.many [([1], [1], [1])]) := by
  refine ⟨rfl, rfl, ?_, rfl⟩
  intro l hc
  rw [show EvaluateFitStripped F21 h0 true = some (Strip.one ([1], [1], [1]))
    from rfl] at hc
  simp at hc

/-- **C8 witness**: one data set, `strip_dims = true` unwraps. -/
theorem claim_C8_witness :
    ∃ t, EvaluateFitStripped F11 h0 true = some (Strip.one t) :=
  (((claim_C8_amended F11 h0 rfl).1 [([1], [2], [1])] rfl).2.1) rfl

/-- **C2.** For a trial vector whose length equals the free-parameter count,
the objective writes the `i`-th trial value into the `i`-th free `Parameter`
(leaving bounds, fit flags and all other `Parameter` objects untouched) and
returns the arithmetic mean, over the evaluated data sets, of
`sqrt(mean((y - y_fit)^2))` (`rmsOf`) computed on the range-filtered points;
a trial vector of any other length fails. -/
theorem claim_C2 (F : Fitter) (h : Heap) (vals : List ℚ)
    (hlen : vals.length = (GetFitParamsList F h).length) :
    (∀ (i : ℕ) (hi : i < (GetFitParamsList F h).length),
       writeVals h (GetFitParamsList F h) vals ((GetFitParamsList F h).get ⟨i, hi⟩)
         = { h ((GetFitParamsList F h).get ⟨i, hi⟩) with
             val := vals.get ⟨i, by omega⟩ }) ∧
    (∀ r : Ref, r ∉ GetFitParamsList F h →
       writeVals h (GetFitParamsList F h) vals r = h r) ∧
    FitFunction F h vals
      = (EvaluateFit F (writeVals h (GetFitParamsList F h) vals)).map
          (fun ts => (writeVals h (GetFitParamsList F h) vals,
            (ts.map (fun t => rmsOf t.2.1 t.2.2)).sum / (ts.length : ℝ))) ∧
    (F.func_set.length = F.data_sets.length →
      ∀ ts, EvaluateFit F (writeVals h (GetFitParamsList F h) vals) = some ts →
        ts.length = F.data_sets.length) ∧
    (∀ vs : List ℚ, vs.length ≠ (GetFitParamsList F h).length →
       FitFunction F h vs = none) := by
  refine ⟨?_, ?_, ?_, ?_, ?_⟩
  · intro i hi
    exact writeVals_get h (GetFitParamsList F h) vals (getFitParamsList_nodup F h)
      hlen.symm i hi
  · intro r hr
    exact writeVals_not_mem h (GetFitParamsList F h) vals r hr
  · rw [FitFunction]
    dsimp only
    rw [if_pos hlen.symm]
    rw [EvaluateFitError]
    cases hEF : EvaluateFit F (writeVals h (GetFitParamsList F h) vals) with
    | none => rfl
    | some ts => simp [rmsOf]
  · intro hc ts hs
    rw [evaluateFit_length F _ ts hs, hc, Nat.min_self]
  · intro vs hvs
    rw [FitFunction]
    dsimp only
    rw [if_neg (fun hc => hvs hc.symm)]

/-- **C2 witness**: one free parameter (reference 0), trial vector `[7]`:
the parameter receives the value 7. -/
theorem claim_C2_witness :
    writeVals h0 (GetFitParamsList F2 h0) [7]
        ((GetFitParamsList F2 h0).get ⟨0, by decide⟩)
      = { h0 ((GetFitParamsList F2 h0).get ⟨0, by decide⟩) with val := 7 } :=
  (claim_C2 F2 h0 [7] (by decide)).1 0 (by decide)

end FitLib
